import Mathlib

/-!
Verification of the pulsar greenio concurrency core (fiber pool, fiber lock,
future aggregation) against its natural-language specification.

The repository ships only the package metadata and the test suite for the
greenio module; the module itself (GreenPool, GreenLock, Future, multi_async)
is not part of the visible sources.  The definitions below are therefore a
shallow operational model built from the specification (sections 3, 4.2, 4.3,
4.4), with the visible tests in tests/apps/greenio.py fixing behaviour the
specification leaves open (in particular the deferred ownership hand-off of
GreenLock.release observed in TestGreenIO.test_lock).
-/

namespace Pulsar

/-- Modelled from the spec: the error taxonomy of section 7 restricted to the
exception values the greenio layer manipulates.  `runtimeError` carries an
optional cause, mirroring Python's `__cause__` chaining used by the
StopIteration wrapping rule; `stopIteration` is the iteration-exhaustion
control signal; `valueError` stands for any other user error. -/
inductive Exc : Type where
  | stopIteration : Exc
  | runtimeError : Option Exc → Exc
  | valueError : Exc

/-- Modelled from the spec: the state of a Future (section 3): pending, or
settled exactly once with a result or an error. -/
inductive FState (α : Type) : Type where
  | pending : FState α
  | resolved : α → FState α
  | failed : Exc → FState α

/-- Modelled from the spec: the *pool-closed* error returned by `submit`
after `shutdown()` has been requested (sections 4.3 and 7). -/
inductive PoolErr : Type where
  | poolClosed : PoolErr
deriving DecidableEq

/-- The outcome a submitted callable will eventually produce: a normal return
value or a raised exception. -/
abbrev Task (α : Type) : Type := Except Exc α

/-- Modelled from the spec: the default `max_workers` constant of the pool
constructor (`greenio._DEFAULT_WORKERS`); the spec fixes only that it is a
constant, the claims only need it to be at least 2. -/
def DEFAULT_WORKERS : Nat := 100

/-- Modelled from the spec: the state of a GreenPool (section 3 and 4.3).
Fibers and futures are identified by natural numbers.  `greenlets` is the set
of all spawned fibers, `available` the idle ones, `running` the busy fibers
together with the future and task each is executing; `queue` holds
submissions admitted beyond the worker bound; `futures` maps future ids to
their state; `waiter` is the future returned by `shutdown()`; `loop` records
the event loop the pool was bound to at construction. -/
structure GreenPool (α : Type) : Type where
  loop : Nat
  maxWorkers : Nat
  greenlets : List Nat
  available : List Nat
  running : List (Nat × Nat × Task α)
  queue : List (Nat × Task α)
  futures : List (Nat × FState α)
  waiter : Option (FState Unit)
  isShutdown : Bool
  nextFiber : Nat
  nextFut : Nat

/-- Modelled from the spec: pool construction binds the current event loop and
starts with no fibers, nothing queued and shutdown not requested. -/
def GreenPool.init (α : Type) (loop maxWorkers : Nat) : GreenPool α :=
  ⟨loop, maxWorkers, [], [], [], [], [], none, false, 0, 0⟩

/-- Functional update of a future table at a given id (first occurrence). -/
def setFut {α : Type} (fid : Nat) (s : FState α) :
    List (Nat × FState α) → List (Nat × FState α)
  | [] => []
  | (g, old) :: rest =>
    if g = fid then (g, s) :: rest else (g, old) :: setFut fid s rest

/-- Look up the state of a future in a pool. -/
def futState {α : Type} (p : GreenPool α) (fid : Nat) : Option (FState α) :=
  (p.futures.find? (fun e => e.1 = fid)).map (·.2)

/-- Modelled from the spec: the StopIteration interception rule of
section 4.3 — an iteration-exhaustion signal escaping the callable is
re-wrapped as a generic runtime error whose cause is the original signal;
every other exception is delivered unchanged. -/
def wrapExc (e : Exc) : Exc :=
  match e with
  | .stopIteration => .runtimeError (some .stopIteration)
  | e => e

/-- How a finished task settles its submission future: a normal return
resolves it with the value, an exception fails it (after the StopIteration
wrapping rule). -/
def settleOutcome {α : Type} (t : Task α) : FState α :=
  match t with
  | .ok v => .resolved v
  | .error e => .failed (wrapExc e)

/-- Modelled from the spec: `submit` (section 4.3).  After shutdown the
submission is rejected with *pool-closed*.  Otherwise a fresh pending future
is created and the task is dispatched: to an available fiber if one exists,
else to a newly spawned fiber while the worker bound allows it, else onto the
admission queue. -/
def submit {α : Type} (p : GreenPool α) (t : Task α) :
    GreenPool α × Except PoolErr Nat :=
  if p.isShutdown then (p, .error .poolClosed)
  else
    match p.available with
    | f :: rest =>
      ({ p with nextFut := p.nextFut + 1,
                futures := p.futures ++ [(p.nextFut, .pending)],
                available := rest,
                running := p.running ++ [(f, p.nextFut, t)] },
       .ok p.nextFut)
    | [] =>
      if p.greenlets.length < p.maxWorkers then
        ({ p with nextFut := p.nextFut + 1,
                  futures := p.futures ++ [(p.nextFut, .pending)],
                  nextFiber := p.nextFiber + 1,
                  greenlets := p.greenlets ++ [p.nextFiber],
                  running := p.running ++ [(p.nextFiber, p.nextFut, t)] },
         .ok p.nextFut)
      else
        ({ p with nextFut := p.nextFut + 1,
                  futures := p.futures ++ [(p.nextFut, .pending)],
                  queue := p.queue ++ [(p.nextFut, t)] },
         .ok p.nextFut)

/-- Remove the first running entry of a given fiber, returning its future id
and task together with the remaining running list. -/
def takeRun {α : Type} (f : Nat) :
    List (Nat × Nat × Task α) → Option ((Nat × Task α) × List (Nat × Nat × Task α))
  | [] => none
  | (g, fid, t) :: rest =>
    if g = f then some ((fid, t), rest)
    else
      match takeRun f rest with
      | some (e, rest2) => some (e, (g, fid, t) :: rest2)
      | none => none

/-- Modelled from the spec: completion of the task a busy fiber is running
(section 4.3).  The submission future is settled with the task's outcome;
then the fiber picks up the next queued submission if any, otherwise returns
to the available set; when shutdown has been requested and this was the last
busy fiber, every fiber is terminated, both sets are emptied and the
shutdown future resolves. -/
def complete {α : Type} (p : GreenPool α) (f : Nat) : GreenPool α :=
  match takeRun f p.running with
  | none => p
  | some ((fid, t), rest) =>
    let futs := setFut fid (settleOutcome t) p.futures
    match p.queue with
    | (fid2, t2) :: qrest =>
      { p with running := rest ++ [(f, fid2, t2)], queue := qrest,
               futures := futs }
    | [] =>
      if p.isShutdown && rest.isEmpty then
        { p with running := rest, futures := futs, greenlets := [],
                 available := [], waiter := some (.resolved ()) }
      else
        { p with running := rest, futures := futs,
                 available := p.available ++ [f] }

/-- Modelled from the spec: `shutdown()` (section 4.3).  No further
submissions are accepted; if no fiber is busy the pool terminates every fiber
at once and the returned future is already resolved, otherwise the future
stays pending until the last busy fiber completes. -/
def shutdownPool {α : Type} (p : GreenPool α) : GreenPool α :=
  if p.running.isEmpty then
    { p with isShutdown := true, greenlets := [], available := [],
             waiter := some (.resolved ()) }
  else
    { p with isShutdown := true, waiter := some .pending }

/-- Submit a list of tasks in order, keeping only the pool state. -/
def submitAll {α : Type} (p : GreenPool α) : List (Task α) → GreenPool α
  | [] => p
  | t :: ts => submitAll (submit p t).1 ts

/-- Complete the tasks of a list of fibers in order. -/
def completeAll {α : Type} (p : GreenPool α) (fs : List Nat) : GreenPool α :=
  fs.foldl complete p

/-- Claim C10: a newly constructed pool, before any submission, holds zero
fibers (empty fiber set, nothing available, nothing busy, nothing queued) and
is bound to the event loop current at construction time. -/
theorem c10_fresh_pool_empty_and_bound (α : Type) (loop w : Nat) :
    (GreenPool.init α loop w).greenlets = [] ∧
    (GreenPool.init α loop w).available = [] ∧
    (GreenPool.init α loop w).running = [] ∧
    (GreenPool.init α loop w).queue = [] ∧
    (GreenPool.init α loop w).loop = loop :=
  ⟨rfl, rfl, rfl, rfl, rfl⟩

/-- Claim C8: submitting a callable returning "Hi!" to a fresh pool yields a
future that, once the spawned fiber completes, is resolved with "Hi!", and
the fiber that ran it is retained and available for reuse (fiber count 1,
available count 1, that same fiber). -/
theorem c8_submit_resolves_and_fiber_reused (loop : Nat) :
    (submit (GreenPool.init String loop DEFAULT_WORKERS) (.ok "Hi!")).2 = .ok 0 ∧
    futState (complete (submit (GreenPool.init String loop DEFAULT_WORKERS) (.ok "Hi!")).1 0) 0
      = some (.resolved "Hi!") ∧
    (complete (submit (GreenPool.init String loop DEFAULT_WORKERS) (.ok "Hi!")).1 0).greenlets
      = [0] ∧
    (complete (submit (GreenPool.init String loop DEFAULT_WORKERS) (.ok "Hi!")).1 0).available
      = [0] :=
  ⟨rfl, rfl, rfl, rfl⟩

/-- Modelled from the spec: the *usage* error of section 7 — a GreenLock
operation violating the ownership rules or attempted outside a fiber
context. -/
inductive LockErr : Type where
  | usage : LockErr

/-- Result of a lock acquisition attempt: immediate ownership, or suspension
of the calling fiber behind a pending future. -/
inductive AcqRes : Type where
  | acquired : AcqRes
  | suspended : Nat → AcqRes

/-- Modelled from the spec: the state of a GreenLock (sections 3 and 4.4) —
an optional owner fiber, the FIFO wait queue of (fiber, future) pairs, and
the table of futures it created for blocked acquirers (`true` = done). -/
structure GreenLock : Type where
  owner : Option Nat
  queue : List (Nat × Nat)
  futures : List (Nat × Bool)
  nextFut : Nat

/-- A freshly constructed lock: unowned, empty wait queue. -/
def lockInit : GreenLock := ⟨none, [], [], 0⟩

/-- Mark a lock future as done (first occurrence). -/
def setDone (fid : Nat) : List (Nat × Bool) → List (Nat × Bool)
  | [] => []
  | (g, b) :: rest =>
    if g = fid then (g, true) :: rest else (g, b) :: setDone fid rest

/-- Whether a lock future is done. -/
def lockFutDone (l : GreenLock) (fid : Nat) : Option Bool :=
  (l.futures.find? (fun e => e.1 = fid)).map (·.2)

/-- Modelled from the spec: `GreenLock.acquire` (section 4.4).  The context
argument is the currently executing fiber, `none` when called from the
reactor's own top-level context; that case fails immediately with *usage*.
If the lock is unowned the caller becomes owner and acquire returns at once;
otherwise the caller is appended to the wait queue behind a fresh pending
future and suspends. -/
def acquire (ctx : Option Nat) (l : GreenLock) :
    Except LockErr (GreenLock × AcqRes) :=
  match ctx with
  | none => .error .usage
  | some f =>
    match l.owner with
    | none => .ok ({ l with owner := some f }, .acquired)
    | some _ =>
      .ok ({ l with nextFut := l.nextFut + 1,
                    futures := l.futures ++ [(l.nextFut, false)],
                    queue := l.queue ++ [(f, l.nextFut)] },
           .suspended l.nextFut)

/-- Modelled from the spec: `GreenLock.release` (section 4.4), with the
hand-off behaviour fixed by TestGreenIO.test_lock.  Only the current owner
may release; releasing an unowned lock fails with *usage*.  With an empty
wait queue the lock becomes unowned; with waiters the head waiter's future
is marked done while the recorded owner is left unchanged until that waiter
is rescheduled (the test observes `locked()` still reporting the releasing
fiber right after `release()`). -/
def release (ctx : Option Nat) (l : GreenLock) : Except LockErr GreenLock :=
  match l.owner with
  | none => .error .usage
  | some f =>
    if ctx = some f then
      match l.queue with
      | [] => .ok { l with owner := none }
      | (_, fid) :: rest =>
        .ok { l with queue := rest, futures := setDone fid l.futures }
    else .error .usage

/-- Modelled from the spec: the suspended acquire call of a granted waiter
resuming on the next scheduling turn (section 4.4); at that point the
resumed fiber records itself as the owner and its acquire returns `true`. -/
def resumeAcquire (f : Nat) (l : GreenLock) : GreenLock :=
  { l with owner := some f }

/-- `GreenLock.locked()`: purely observational view of the current owner. -/
def locked (l : GreenLock) : Option Nat := l.owner

/-- Claim C7: acquiring from outside any fiber context fails with *usage*
(for every lock state, so in particular it never deadlocks), releasing a
fresh lock without a prior successful acquire fails with *usage* from any
context, and in both failure cases the lock stays unowned: `locked` reports
no owner. -/
theorem c7_lock_usage_errors :
    (∀ l : GreenLock, acquire none l = .error .usage) ∧
    (∀ ctx : Option Nat, release ctx lockInit = .error .usage) ∧
    locked lockInit = none :=
  ⟨fun _ => rfl, fun _ => rfl, rfl⟩

/-- Claim C1: with the lock owned by f1 and fibers f2 then f3 suspended in
FIFO order on pending futures 0 and 1, a release by f1 marks the head
waiter f2's future done (and not f3's), pops exactly f2 from the queue, and
when f2's suspended acquire resumes on the next turn f2 is the recorded
owner: ownership transfers to the head of the queue in FIFO order. -/
theorem c1_release_grants_head_waiter_fifo (f1 f2 f3 : Nat) :
    let l1 : GreenLock := ⟨some f1, [], [], 0⟩
    let l2 : GreenLock := ⟨some f1, [(f2, 0)], [(0, false)], 1⟩
    let l3 : GreenLock := ⟨some f1, [(f2, 0), (f3, 1)], [(0, false), (1, false)], 2⟩
    let l4 : GreenLock := ⟨some f1, [(f3, 1)], [(0, true), (1, false)], 2⟩
    acquire (some f1) lockInit = .ok (l1, .acquired) ∧
    acquire (some f2) l1 = .ok (l2, .suspended 0) ∧
    acquire (some f3) l2 = .ok (l3, .suspended 1) ∧
    release (some f1) l3 = .ok l4 ∧
    lockFutDone l4 0 = some true ∧
    lockFutDone l4 1 = some false ∧
    l4.queue = [(f3, 1)] ∧
    locked (resumeAcquire f2 l4) = some f2 := by
  refine ⟨rfl, rfl, rfl, ?_, rfl, rfl, rfl, rfl⟩
  simp [release, setDone]

/-- Claim C9: a second fiber f2 acquiring a lock owned by f1 suspends behind
a pending future; that future is not done before f1 releases and is done
right after, while `locked()` still reports the releasing fiber f1
immediately after the release — the recorded-owner hand-off to the waiter is
deferred past the release call itself. -/
theorem c9_pending_acquire_future_and_deferred_handoff (f1 f2 : Nat) :
    let l1 : GreenLock := ⟨some f1, [], [], 0⟩
    let l2 : GreenLock := ⟨some f1, [(f2, 0)], [(0, false)], 1⟩
    let l3 : GreenLock := ⟨some f1, [], [(0, true)], 1⟩
    acquire (some f2) l1 = .ok (l2, .suspended 0) ∧
    lockFutDone l2 0 = some false ∧
    locked l2 = some f1 ∧
    release (some f1) l2 = .ok l3 ∧
    lockFutDone l3 0 = some true ∧
    locked l3 = some f1 := by
  refine ⟨rfl, rfl, rfl, ?_, rfl, rfl⟩
  simp [release, setDone]

/-- Modelled from the spec: the state of the aggregate future built by
`multi_async(futures)` (section 4.2): one result slot per input future, in
input order, plus the aggregate's own state. -/
structure MultiAsync (α : Type) : Type where
  slots : List (Option (Except Exc α))
  result : FState (List α)

/-- `multi_async` over n input futures before any has settled: every slot
empty, aggregate pending. -/
def multiAsyncInit (α : Type) (n : Nat) : MultiAsync α :=
  ⟨List.replicate n none, .pending⟩

/-- Store a settled input outcome in its input-position slot. -/
def setSlot {β : Type} : List (Option β) → Nat → β → List (Option β)
  | [], _, _ => []
  | _ :: rest, 0, v => some v :: rest
  | o :: rest, i + 1, v => o :: setSlot rest i v

/-- Collect the values of a fully and successfully settled slot list, in
slot (= input) order; `none` while any slot is missing or failed. -/
def collectSlots {α : Type} : List (Option (Except Exc α)) → Option (List α)
  | [] => some []
  | some (.ok v) :: rest => (collectSlots rest).map (fun vs => v :: vs)
  | _ :: _ => none

/-- Modelled from the spec: the continuation `multi_async` attaches to its
i-th input, run when that input settles (section 4.2).  A failure fails the
aggregate at once (first failure observed, later events ignored); a success
fills the slot and, once every input has settled successfully, resolves the
aggregate with the results in input order. -/
def multiAsyncSettle {α : Type} (g : MultiAsync α) (i : Nat)
    (r : Except Exc α) : MultiAsync α :=
  match g.result with
  | .pending =>
    let slots := setSlot g.slots i r
    match r with
    | .error e => ⟨slots, .failed e⟩
    | .ok _ =>
      match collectSlots slots with
      | some vs => ⟨slots, .resolved vs⟩
      | none => ⟨slots, .pending⟩
  | _ => g

/-- Claim C3: for an ordered pair of futures a (slot 0) and b (slot 1),
`multi_async([a, b])` stays pending until both have settled successfully and
then resolves to `[resultOf(a), resultOf(b)]` in input order, whether a
settles first or b settles first. -/
theorem c3_multi_async_preserves_input_order (α : Type) (va vb : α) :
    (multiAsyncSettle (multiAsyncInit α 2) 0 (.ok va)).result = .pending ∧
    (multiAsyncSettle (multiAsyncInit α 2) 1 (.ok vb)).result = .pending ∧
    (multiAsyncSettle (multiAsyncSettle (multiAsyncInit α 2) 0 (.ok va)) 1
        (.ok vb)).result = .resolved [va, vb] ∧
    (multiAsyncSettle (multiAsyncSettle (multiAsyncInit α 2) 1 (.ok vb)) 0
        (.ok va)).result = .resolved [va, vb] :=
  ⟨rfl, rfl, rfl, rfl⟩

/-- Claim C2: for every callable submitted to a fresh pool, the settled
future is never a bare StopIteration failure, and when the callable lets
StopIteration escape the future fails with a RuntimeError whose cause is
the original StopIteration. -/
theorem c2_stopiteration_wrapped_as_runtimeerror (α : Type) (loop : Nat)
    (t : Task α) :
    futState
        (complete (submit (GreenPool.init α loop DEFAULT_WORKERS) t).1 0) 0
      ≠ some (.failed .stopIteration) ∧
    (t = .error .stopIteration →
      futState
          (complete (submit (GreenPool.init α loop DEFAULT_WORKERS) t).1 0) 0
        = some (.failed (.runtimeError (some .stopIteration)))) := by
  have hst : futState
      (complete (submit (GreenPool.init α loop DEFAULT_WORKERS) t).1 0) 0
      = some (settleOutcome t) := by
    simp [GreenPool.init, submit, complete, takeRun, setFut, futState,
      DEFAULT_WORKERS]
  rw [hst]
  constructor
  · intro h
    rw [Option.some_inj] at h
    cases t with
    | ok v => exact FState.noConfusion h
    | error e =>
      cases e with
      | stopIteration => exact Exc.noConfusion (FState.failed.inj h)
      | runtimeError c => exact Exc.noConfusion (FState.failed.inj h)
      | valueError => exact Exc.noConfusion (FState.failed.inj h)
  · intro h
    rw [h]
    rfl

/-- Concrete instantiation of the hypotheses of the C2 theorem: the callable
that raises StopIteration on a fresh pool settles its future as a
RuntimeError caused by StopIteration, never as a bare StopIteration. -/
theorem c2_stopiteration_wrapped_witness :
    futState
        (complete
          (submit (GreenPool.init Nat 0 DEFAULT_WORKERS)
            (.error .stopIteration)).1 0) 0
      ≠ some (.failed .stopIteration) ∧
    futState
        (complete
          (submit (GreenPool.init Nat 0 DEFAULT_WORKERS)
            (.error .stopIteration)).1 0) 0
      = some (.failed (.runtimeError (some .stopIteration))) :=
  ⟨(c2_stopiteration_wrapped_as_runtimeerror Nat 0 (.error .stopIteration)).1,
   (c2_stopiteration_wrapped_as_runtimeerror Nat 0 (.error .stopIteration)).2 rfl⟩

/-- Claim C5: a submitted callable raising an uncaught error other than
StopIteration fails the submission's future with that very error, and the
fiber that ran it is still returned to the available set (fiber count 1,
available count 1). -/
theorem c5_error_fails_future_and_keeps_fiber (loop : Nat) (e : Exc)
    (he : e ≠ .stopIteration) :
    futState
        (complete
          (submit (GreenPool.init Unit loop DEFAULT_WORKERS)
            (.error e)).1 0) 0
      = some (.failed e) ∧
    (complete
        (submit (GreenPool.init Unit loop DEFAULT_WORKERS) (.error e)).1
        0).greenlets = [0] ∧
    (complete
        (submit (GreenPool.init Unit loop DEFAULT_WORKERS) (.error e)).1
        0).available = [0] := by
  have hw : wrapExc e = e := by
    cases e with
    | stopIteration => exact absurd rfl he
    | runtimeError c => rfl
    | valueError => rfl
  refine ⟨?_, rfl, rfl⟩
  simp [GreenPool.init, submit, complete, takeRun, setFut, futState,
    DEFAULT_WORKERS, settleOutcome, hw]

/-- Concrete instantiation of the hypotheses of the C5 theorem: a callable
raising RuntimeError on a fresh pool fails its future with that RuntimeError
while the single spawned fiber is retained and available. -/
theorem c5_error_fails_future_witness :
    futState
        (complete
          (submit (GreenPool.init Unit 0 DEFAULT_WORKERS)
            (.error (.runtimeError none))).1 0) 0
      = some (.failed (.runtimeError none)) ∧
    (complete
        (submit (GreenPool.init Unit 0 DEFAULT_WORKERS)
          (.error (.runtimeError none))).1 0).greenlets = [0] ∧
    (complete
        (submit (GreenPool.init Unit 0 DEFAULT_WORKERS)
          (.error (.runtimeError none))).1 0).available = [0] :=
  c5_error_fails_future_and_keeps_fiber 0 (.runtimeError none)
    (fun h => Exc.noConfusion h)

/-- Submitting one more task acts on the pool reached by the earlier
submissions. -/
theorem submitAll_append {α : Type} (p : GreenPool α) (l : List (Task α))
    (t : Task α) : submitAll p (l ++ [t]) = (submit (submitAll p l) t).1 := by
  induction l generalizing p with
  | nil => rfl
  | cons a l ih => exact ih (submit p a).1

/-- State of a fresh pool after any sequence of submissions and no
completion: nothing available, not shut down, `min N maxWorkers` fibers all
busy, and the `N - maxWorkers` overflow submissions queued. -/
theorem submitAll_fresh_counts {α : Type} (loop w : Nat)
    (ts : List (Task α)) :
    (submitAll (GreenPool.init α loop w) ts).available = [] ∧
    (submitAll (GreenPool.init α loop w) ts).isShutdown = false ∧
    (submitAll (GreenPool.init α loop w) ts).maxWorkers = w ∧
    (submitAll (GreenPool.init α loop w) ts).greenlets.length
      = min ts.length w ∧
    (submitAll (GreenPool.init α loop w) ts).running.length
      = min ts.length w ∧
    (submitAll (GreenPool.init α loop w) ts).queue.length = ts.length - w := by
  induction ts using List.reverseRecOn with
  | nil => simp [submitAll, GreenPool.init]
  | append_singleton l t ih =>
    obtain ⟨ha, hs, hm, hg, hr, hq⟩ := ih
    rw [submitAll_append]
    by_cases hlt :
        (submitAll (GreenPool.init α loop w) l).greenlets.length
          < (submitAll (GreenPool.init α loop w) l).maxWorkers
    · have hsub : (submit (submitAll (GreenPool.init α loop w) l) t).1
          = { submitAll (GreenPool.init α loop w) l with
              nextFut := (submitAll (GreenPool.init α loop w) l).nextFut + 1,
              futures := (submitAll (GreenPool.init α loop w) l).futures
                ++ [((submitAll (GreenPool.init α loop w) l).nextFut, .pending)],
              nextFiber :=
                (submitAll (GreenPool.init α loop w) l).nextFiber + 1,
              greenlets := (submitAll (GreenPool.init α loop w) l).greenlets
                ++ [(submitAll (GreenPool.init α loop w) l).nextFiber],
              running := (submitAll (GreenPool.init α loop w) l).running
                ++ [((submitAll (GreenPool.init α loop w) l).nextFiber,
                     (submitAll (GreenPool.init α loop w) l).nextFut, t)] } := by
        simp [submit, hs, ha, hlt]
      rw [hsub]
      rw [hm, hg] at hlt
      refine ⟨ha, hs, hm, ?_, ?_, ?_⟩ <;>
        simp [List.length_append, hg, hr, hq] <;> omega
    · have hsub : (submit (submitAll (GreenPool.init α loop w) l) t).1
          = { submitAll (GreenPool.init α loop w) l with
              nextFut := (submitAll (GreenPool.init α loop w) l).nextFut + 1,
              futures := (submitAll (GreenPool.init α loop w) l).futures
                ++ [((submitAll (GreenPool.init α loop w) l).nextFut, .pending)],
              queue := (submitAll (GreenPool.init α loop w) l).queue
                ++ [((submitAll (GreenPool.init α loop w) l).nextFut, t)] } := by
        simp [submit, hs, ha, hlt]
      rw [hsub]
      rw [hm, hg] at hlt
      refine ⟨ha, hs, hm, ?_, ?_, ?_⟩ <;>
        simp [List.length_append, hg, hr, hq] <;> omega

/-- Claim C4: for every sequence of N submissions issued to a fresh pool
before any completes, the pool spawns exactly `min N maxWorkers` fibers,
queues the `N - maxWorkers` remainder, keeps them all busy (nothing
available) and maintains `|available| + |busy| ≤ maxWorkers`; in particular
two submissions to a fresh default pool yield two fibers all busy, and after
both complete both fibers are available and none is busy. -/
theorem c4_pool_spawns_min_workers (α : Type) (loop w : Nat)
    (ts : List (Task α)) :
    ((submitAll (GreenPool.init α loop w) ts).greenlets.length
        = min ts.length w ∧
      (submitAll (GreenPool.init α loop w) ts).available = [] ∧
      (submitAll (GreenPool.init α loop w) ts).queue.length
        = ts.length - w ∧
      (submitAll (GreenPool.init α loop w) ts).available.length
          + (submitAll (GreenPool.init α loop w) ts).running.length ≤ w) ∧
    ((submitAll (GreenPool.init String loop DEFAULT_WORKERS)
        [.ok "a", .ok "b"]).greenlets.length = 2 ∧
      (submitAll (GreenPool.init String loop DEFAULT_WORKERS)
        [.ok "a", .ok "b"]).available = [] ∧
      (completeAll
          (submitAll (GreenPool.init String loop DEFAULT_WORKERS)
            [.ok "a", .ok "b"]) [0, 1]).available.length = 2 ∧
      (completeAll
          (submitAll (GreenPool.init String loop DEFAULT_WORKERS)
            [.ok "a", .ok "b"]) [0, 1]).running = []) := by
  obtain ⟨ha, hs, hm, hg, hr, hq⟩ := submitAll_fresh_counts loop w ts
  refine ⟨⟨hg, ha, hq, ?_⟩, rfl, rfl, rfl, rfl⟩
  rw [ha, hr]
  simp [Nat.min_le_right]

/-- Modelled from the spec: the scheduling turns the reactor grants after a
shutdown request (sections 4.3 and 5) — on each turn the first busy fiber
finishes its current task through `complete` (which lets it pick up a queued
submission first, and terminates the pool when it was the last busy fiber);
the drain stops when no fiber is busy.  `n` bounds the number of turns;
every turn either shortens the admission queue or retires a fiber, so
`queue.length + running.length` turns always suffice. -/
def drainSteps {α : Type} (p : GreenPool α) (n : Nat) : GreenPool α :=
  match n with
  | 0 => p
  | n + 1 =>
    match p.running with
    | [] => p
    | (f, _, _) :: _ => drainSteps (complete p f) n

/-- A pool with no busy fiber is a fixed point of the drain. -/
theorem drainSteps_fixed {α : Type} (p : GreenPool α) (n : Nat)
    (h : p.running = []) : drainSteps p n = p := by
  cases n with
  | zero => rfl
  | succ n => simp [drainSteps, h]

/-- Draining a shut-down pool: as long as some fiber is busy, granting at
least `queue.length + running.length` scheduling turns works off every
queued submission, terminates every fiber, empties both sets and resolves
the shutdown future. -/
theorem drainSteps_clears {α : Type} :
    ∀ (n : Nat) (p : GreenPool α),
    p.queue.length + p.running.length ≤ n → p.isShutdown = true →
    p.running ≠ [] →
    (drainSteps p n).greenlets = [] ∧ (drainSteps p n).available = [] ∧
    (drainSteps p n).running = [] ∧
    (drainSteps p n).waiter = some (.resolved ()) := by
  intro n
  induction n with
  | zero =>
    intro p hn hs hne
    cases hr : p.running with
    | nil => exact absurd hr hne
    | cons e rest =>
      rw [hr] at hn
      simp [List.length_cons] at hn
  | succ n ih =>
    intro p hn hs hne
    cases hr : p.running with
    | nil => exact absurd hr hne
    | cons e rest =>
      obtain ⟨f, fid, t⟩ := e
      have hstep : drainSteps p (n + 1) = drainSteps (complete p f) n := by
        simp [drainSteps, hr]
      rw [hstep]
      cases hq : p.queue with
      | cons e2 qrest =>
        obtain ⟨fid2, t2⟩ := e2
        have hc : complete p f
            = { p with running := rest ++ [(f, fid2, t2)], queue := qrest,
                       futures := setFut fid (settleOutcome t) p.futures } := by
          simp [complete, hr, takeRun, hq]
        rw [hc]
        apply ih
        · rw [hr, hq] at hn
          simp [List.length_cons, List.length_append] at hn ⊢
          omega
        · exact hs
        · simp
      | nil =>
        cases rest with
        | nil =>
          have hc : complete p f
              = { p with running := [],
                         futures := setFut fid (settleOutcome t) p.futures,
                         greenlets := [], available := [],
                         waiter := some (.resolved ()) } := by
            simp [complete, hr, takeRun, hq, hs]
          rw [hc, drainSteps_fixed _ n rfl]
          exact ⟨rfl, rfl, rfl, rfl⟩
        | cons e2 rest2 =>
          have hc : complete p f
              = { p with running := e2 :: rest2,
                         futures := setFut fid (settleOutcome t) p.futures,
                         available := p.available ++ [f] } := by
            simp [complete, hr, takeRun, hq, hs]
          rw [hc]
          apply ih
          · rw [hr] at hn
            simp [List.length_cons] at hn ⊢
            omega
          · exact hs
          · exact List.cons_ne_nil e2 rest2

/-- Claim C6: for every pool state, requesting `shutdown()` and then letting
the fibers run to completion (working off any queued admissions first)
terminates every fiber: the pool ends with zero fibers, zero available,
zero busy, and the shutdown future resolved. -/
theorem c6_shutdown_terminates_all_fibers {α : Type} (p : GreenPool α) :
    (drainSteps (shutdownPool p)
        ((shutdownPool p).queue.length
          + (shutdownPool p).running.length)).greenlets = [] ∧
    (drainSteps (shutdownPool p)
        ((shutdownPool p).queue.length
          + (shutdownPool p).running.length)).available = [] ∧
    (drainSteps (shutdownPool p)
        ((shutdownPool p).queue.length
          + (shutdownPool p).running.length)).running = [] ∧
    (drainSteps (shutdownPool p)
        ((shutdownPool p).queue.length
          + (shutdownPool p).running.length)).waiter
      = some (.resolved ()) := by
  cases hr : p.running with
  | nil =>
    have h1 : shutdownPool p
        = { p with isShutdown := true, greenlets := [], available := [],
                   waiter := some (.resolved ()) } := by
      simp [shutdownPool, hr]
    have h2 : (shutdownPool p).running = [] := by
      rw [h1]; exact hr
    rw [drainSteps_fixed (shutdownPool p) _ h2, h1]
    exact ⟨rfl, rfl, hr, rfl⟩
  | cons e rest =>
    have h1 : shutdownPool p
        = { p with isShutdown := true, waiter := some .pending } := by
      simp [shutdownPool, hr]
    have h2 : (shutdownPool p).running = e :: rest := by
      rw [h1]; exact hr
    have h3 : (shutdownPool p).isShutdown = true := by
      rw [h1]
    apply drainSteps_clears
    · exact Nat.le_refl _
    · exact h3
    · rw [h2]
      exact List.cons_ne_nil e rest

end Pulsar
